import Mathlib

/-!
Verification of the fapi diagnostic HTTP service (src/main.py, src/util.py).

The embedding models, at the byte level (`List Nat`), the Python standard
library routines the code calls (`binascii.a2b_base64` in strict and
non-strict mode, which is what `base64.b64decode` dispatches to on
Python 3.11, `base64.b64encode`, and strict UTF-8 encode/decode of `str`),
and on top of them the validator `is_base64_encoded` of src/util.py and the
eight request handlers of src/main.py.  A handler that can raise an uncaught
exception is modelled as returning `none`; a normal response is `some r`
where `r` is a tagged JSON / HTML / redirect value.
-/

namespace Fapi

/-- Base64 value of an ASCII byte, as in CPython's `table_a2b_base64`:
`A`-`Z` are 0-25, `a`-`z` are 26-51, `0`-`9` are 52-61, `+` is 62,
`/` is 63; every other byte (including the pad byte 61, `=`, which the
decoding loop handles separately) is invalid. -/
def table_a2b (b : Nat) : Option Nat :=
  if 65 ≤ b ∧ b ≤ 90 then some (b - 65)
  else if 97 ≤ b ∧ b ≤ 122 then some (b - 97 + 26)
  else if 48 ≤ b ∧ b ≤ 57 then some (b - 48 + 52)
  else if b = 43 then some 62
  else if b = 47 then some 63
  else none

/-- Base64 alphabet byte for a 6-bit value, as in CPython's
`table_b2a_base64`. -/
def encTable (v : Nat) : Nat :=
  if v < 26 then 65 + v
  else if v < 52 then 97 + (v - 26)
  else if v < 62 then 48 + (v - 52)
  else if v = 62 then 43
  else 47

/-- Decoding loop of CPython's `binascii.a2b_base64` (binascii.c).  The
state mirrors the C local variables `quad_pos`, `leftchar`, `pads` and
`padding_started`; `out` is the output written so far.  A `none` result is
a raised `binascii.Error`; in non-strict mode (`strict = false`) invalid
bytes are skipped and a completed pad sequence ends the input early. -/
def a2bLoop (strict : Bool) : List Nat → Nat → Nat → Nat → Bool → List Nat → Option (List Nat)
  | [], quadPos, _, _, _, out => if quadPos = 0 then some out else none
  | b :: rest, quadPos, leftchar, pads, padStarted, out =>
    if b = 61 then
      if 2 ≤ quadPos then
        if 4 ≤ quadPos + (pads + 1) then
          if strict ∧ rest ≠ [] then none else some out
        else a2bLoop strict rest quadPos leftchar (pads + 1) true out
      else a2bLoop strict rest quadPos leftchar pads true out
    else
      match table_a2b b with
      | none => if strict then none else a2bLoop strict rest quadPos leftchar pads padStarted out
      | some v =>
        if strict ∧ padStarted then none
        else
          if quadPos = 0 then a2bLoop strict rest 1 v 0 padStarted out
          else if quadPos = 1 then
            a2bLoop strict rest 2 (v % 16) 0 padStarted (out ++ [(leftchar * 4 + v / 16) % 256])
          else if quadPos = 2 then
            a2bLoop strict rest 3 (v % 4) 0 padStarted (out ++ [(leftchar * 16 + v / 4) % 256])
          else a2bLoop strict rest 0 0 0 padStarted (out ++ [(leftchar * 64 + v) % 256])

/-- CPython's `binascii.a2b_base64`: the strict-mode leading-padding check
followed by the decoding loop started in its initial state. -/
def a2b_base64 (strict : Bool) (s : List Nat) : Option (List Nat) :=
  if strict ∧ s.head? = some 61 then none
  else a2bLoop strict s 0 0 0 false []

/-- Python 3.11's `base64.b64decode` on a bytes argument: it simply calls
`binascii.a2b_base64` with `strict_mode = validate`. -/
def b64decode (validate : Bool) (s : List Nat) : Option (List Nat) :=
  a2b_base64 validate s

/-- Python's `base64.b64encode`: standard base64 with `=` padding, three
input bytes to four alphabet bytes. -/
def b64encode : List Nat → List Nat
  | [] => []
  | [a] => [encTable (a / 4), encTable (a % 4 * 16), 61, 61]
  | [a, b] => [encTable (a / 4), encTable (a % 4 * 16 + b / 16), encTable (b % 16 * 4), 61]
  | a :: b :: c :: rest =>
    encTable (a / 4) :: encTable (a % 4 * 16 + b / 16) ::
      encTable (b % 16 * 4 + c / 64) :: encTable (c % 64) :: b64encode rest

/-- UTF-8 bytes of one Unicode scalar value, as produced by Python's
`str.encode` with the (default) `utf-8` codec. -/
def utf8EncodeChar (c : Char) : List Nat :=
  let n := c.toNat
  if n < 128 then [n]
  else if n < 2048 then [192 + n / 64, 128 + n % 64]
  else if n < 65536 then [224 + n / 4096, 128 + n / 64 % 64, 128 + n % 64]
  else [240 + n / 262144, 128 + n / 4096 % 64, 128 + n / 64 % 64, 128 + n % 64]

/-- Python's `str.encode('utf-8')` on a string given as its list of
characters. -/
def encodeUtf8 : List Char → List Nat
  | [] => []
  | c :: cs => utf8EncodeChar c ++ encodeUtf8 cs

/-- One step of Python's strict UTF-8 decoder: given the lead byte `b` and
the bytes after it, either the decoded scalar value together with the
remaining bytes, or a decode error.  Rejects invalid lead or continuation
bytes, overlong forms, surrogate code points and values above U+10FFFF. -/
def utf8Step (b : Nat) (rest : List Nat) : Option (Char × List Nat) :=
  if b < 128 then some (Char.ofNat b, rest)
  else if b < 194 then none
  else if b < 224 then
    match rest with
    | [] => none
    | b1 :: rest2 =>
      if 128 ≤ b1 ∧ b1 < 192 then some (Char.ofNat ((b - 192) * 64 + (b1 - 128)), rest2)
      else none
  else if b < 240 then
    match rest with
    | b1 :: b2 :: rest2 =>
      if (128 ≤ b1 ∧ b1 < 192) ∧ (128 ≤ b2 ∧ b2 < 192) then
        if (b - 224) * 4096 + (b1 - 128) * 64 + (b2 - 128) < 2048 then none
        else if 55296 ≤ (b - 224) * 4096 + (b1 - 128) * 64 + (b2 - 128) ∧
            (b - 224) * 4096 + (b1 - 128) * 64 + (b2 - 128) < 57344 then none
        else some (Char.ofNat ((b - 224) * 4096 + (b1 - 128) * 64 + (b2 - 128)), rest2)
      else none
    | _ => none
  else if b < 245 then
    match rest with
    | b1 :: b2 :: b3 :: rest2 =>
      if (128 ≤ b1 ∧ b1 < 192) ∧ (128 ≤ b2 ∧ b2 < 192) ∧ (128 ≤ b3 ∧ b3 < 192) then
        if (b - 240) * 262144 + (b1 - 128) * 4096 + (b2 - 128) * 64 + (b3 - 128) < 65536 then
          none
        else if 1114112 ≤ (b - 240) * 262144 + (b1 - 128) * 4096 + (b2 - 128) * 64 + (b3 - 128) then
          none
        else
          some (Char.ofNat ((b - 240) * 262144 + (b1 - 128) * 4096 + (b2 - 128) * 64 + (b3 - 128)),
            rest2)
      else none
    | _ => none
  else none

/-- Recursion core of `decodeUtf8`: decode lead byte by lead byte with
`utf8Step`.  The fuel argument only bounds the recursion depth; since every
step consumes at least one byte, fuel equal to the byte count is always
enough and the out-of-fuel branch is unreachable from `decodeUtf8`. -/
def decodeUtf8Go : Nat → List Nat → Option (List Char)
  | _, [] => some []
  | 0, _ :: _ => none
  | fuel + 1, b :: rest =>
    match utf8Step b rest with
    | none => none
    | some (c, rest2) =>
      match decodeUtf8Go fuel rest2 with
      | some cs => some (c :: cs)
      | none => none

/-- Python's `bytes.decode('utf-8')` (strict errors): `none` is a raised
`UnicodeDecodeError`. -/
def decodeUtf8 (bs : List Nat) : Option (List Char) :=
  decodeUtf8Go bs.length bs

/-- Validator of src/util.py, `is_base64_encoded`: an empty string is
rejected outright, otherwise the UTF-8 bytes of the string are decoded by
`base64.b64decode(..., validate=True)` and validity is the absence of an
error. -/
def is_base64_encoded (input_string : String) : Bool :=
  if input_string.data.isEmpty then false
  else (b64decode true (encodeUtf8 input_string.data)).isSome

/-- One HTTP response of this service: a JSON object with string values, an
HTML page, or a redirect, each with its status code. -/
inductive Resp where
  | json : Nat → List (String × String) → Resp
  | html : Nat → String → Resp
  | redirect : Nat → String → Resp
deriving DecidableEq, Repr

/-- Handler of `GET /` in src/main.py. -/
def root : Option Resp :=
  some (.json 200 [("message", "Hello World")])

/-- Handler of `GET /log` in src/main.py. -/
def log : Option Resp :=
  some (.json 200 [("message", "OK")])

/-- Handler of `GET /redirect` in src/main.py: if the validator accepts
`url`, it is base64-decoded (non-strict `b64decode`, no `validate`) and the
bytes are UTF-8-decoded (an uncaught `UnicodeDecodeError` is `none`);
otherwise `url` is used verbatim.  `RedirectResponse` is returned with the
framework's default redirect status code 307.  On the decoding path the
validator has already forced `url` to be ASCII, so its UTF-8 bytes coincide
with the ASCII bytes `b64decode` reads from the `str`. -/
def redirector (url : String) : Option Resp :=
  if is_base64_encoded url then
    match b64decode false (encodeUtf8 url.data) with
    | none => none
    | some bs =>
      match decodeUtf8 bs with
      | none => none
      | some cs => some (.redirect 307 (String.mk cs))
  else some (.redirect 307 url)

/-- Clamping step of the `/sleep` handler: `if abs(sec) > 10: sec = 10`. -/
def clampSec (sec : Int) : Int :=
  if 10 < sec.natAbs then 10 else sec

/-- Literal template text of the `/sleep` body before the `{sec}` field, as
written in src/main.py (the triple-quoted string starts with a newline and
keeps the source indentation). -/
def sleepPre : String :=
  "\n<!DOCTYPE html>\n<head>\n</head>\n<body>\n  <script>\n    console.log(\"before\");\n    setTimeout(() => console.log(\"after\"), "

/-- Literal template text of the `/sleep` body after the `{sec}000`
substitution point (the template ends with a newline and four spaces). -/
def sleepPost : String :=
  ");\n  </script>\n</body>\n</html>\n    "

/-- Body of the `/sleep` response for a given (already clamped) `sec`:
`'...{sec}000...'.format(sec=sec)`, i.e. the decimal rendering of `sec`
immediately followed by the literal characters `000`. -/
def sleepBody (sec : Int) : String :=
  sleepPre ++ toString sec ++ "000" ++ sleepPost

/-- Handler of `GET /sleep` in src/main.py: clamp `sec` by absolute value,
then return the HTML template with `{sec}` substituted, status 200.  No
server-side delay happens. -/
def sleep (sec : Int) : Option Resp :=
  some (.html 200 (sleepBody (clampSec sec)))

/-- Handler of `GET /html` in src/main.py: same decode-if-validated shape
as `/redirect`, rendered as an HTML response with status 200. -/
def html_renderer (content : String) : Option Resp :=
  if is_base64_encoded content then
    match b64decode false (encodeUtf8 content.data) with
    | none => none
    | some bs =>
      match decodeUtf8 bs with
      | none => none
      | some cs => some (.html 200 (String.mk cs))
  else some (.html 200 content)

/-- Handler of `GET /encode` in src/main.py: base64-encode the UTF-8 bytes
of `data`, decode the resulting bytes back to a `str` with `.decode('utf-8')`,
and answer with both strings. -/
def encode_data (data : String) : Option Resp :=
  match decodeUtf8 (b64encode (encodeUtf8 data.data)) with
  | some cs => some (.json 200 [("original", data), ("encoded", String.mk cs)])
  | none => none

/-- Handler of `GET /decode` in src/main.py: non-strict `base64.b64decode`
of the UTF-8 bytes of `data` followed by strict UTF-8 decoding, inside a
`try` whose `except Exception` answers HTTP 400 with detail
`Invalid Base64 data`. -/
def decode_data (data : String) : Option Resp :=
  some (match b64decode false (encodeUtf8 data.data) with
    | some bs =>
      match decodeUtf8 bs with
      | some cs => Resp.json 200 [("original_b64", data), ("decoded", String.mk cs)]
      | none => Resp.json 400 [("detail", "Invalid Base64 data")]
    | none => Resp.json 400 [("detail", "Invalid Base64 data")])

/-- Literal template text of the `/document/write` body before the `{url}`
field, as written in src/main.py (the `\x7b\x7b`/`\x7d\x7d` escapes of the
Python format string render as single braces). -/
def dwPre : String :=
  "\n<!DOCTYPE html>\n<head>\n</head>\n<body>\n  <script>\n    var t = new XMLHttpRequest;\n    t.onload = function () \x7b\n      t.status >= 200 && t.status < 300 ? document.write(t.responseText) : console.error(\"Request failed with status: \" + t.status)\n    \x7d;\n    t.open(\"GET\", \""

/-- Literal template text of the `/document/write` body after the `{url}`
substitution point. -/
def dwPost : String :=
  "\");\n    t.send();\n  </script>\n</body>\n</html>\n    "

/-- Handler of `GET /document/write` in src/main.py: the HTML template with
`{url}` substituted verbatim (unescaped), status 200. -/
def document_write (url : String) : Option Resp :=
  some (.html 200 (dwPre ++ url ++ dwPost))

/-! ### Auxiliary definitions used to state and settle the claims -/

/-- Success predicate of the strict decoding loop, read off state by state:
from quad position `q`, the remaining bytes decode without error exactly
when this holds.  A `=` seen at quad position 0 only tolerates further `=`
bytes; at position 1 the input can no longer succeed; at position 2 exactly
`==` must follow and end the input; at position 3 exactly `=`. -/
def okFrom : Nat → List Nat → Bool
  | q, [] => decide (q = 0)
  | q, b :: rest =>
    if b = 61 then
      if q = 0 then rest.all (fun x => decide (x = 61))
      else if q = 2 then decide (rest = [61])
      else if q = 3 then rest.isEmpty
      else false
    else
      match table_a2b b with
      | none => false
      | some _ => okFrom ((q + 1) % 4) rest

/-- Membership of a byte in the base64 alphabet. -/
def isAlphaB (b : Nat) : Bool :=
  (table_a2b b).isSome

/-- Padding rule of strict decoding, phrased on the data-character count
modulo 4 and the number of trailing `=` bytes: a complete final quad
tolerates any number of trailing `=`, two data characters need exactly two
`=`, three need exactly one, and a single leftover data character can never
succeed. -/
def padRule : Nat → Nat → Bool
  | 0, _ => true
  | 2, p => decide (p = 2)
  | 3, p => decide (p = 1)
  | _, _ => false

/-- Structural characterization of strict base64 acceptance on bytes,
relative to a starting quad position `q`: the input splits as a run `D` of
non-`=` bytes followed by the rest `P`; all of `D` must be alphabet bytes,
all of `P` must be `=`, and the lengths must satisfy `padRule`. -/
def byteSpecFrom (q : Nat) (bs : List Nat) : Bool :=
  let D := bs.takeWhile (fun b => decide (b ≠ 61))
  let P := bs.dropWhile (fun b => decide (b ≠ 61))
  D.all isAlphaB && P.all (fun b => decide (b = 61)) &&
    padRule ((q + D.length) % 4) P.length

/-- Characterization of the validator on characters, stated the way the
amended claim C2 reads: the string is non-empty and splits as a non-empty
run `D` of base64-alphabet characters followed by a run `P` of `=` signs,
with `D.length % 4 = 0` (any number of `=`, zero included), or
`D.length % 4 = 2` and exactly two `=`, or `D.length % 4 = 3` and exactly
one `=`. -/
def charSpec (cs : List Char) : Bool :=
  let D := cs.takeWhile (fun c => decide (c ≠ '='))
  let P := cs.dropWhile (fun c => decide (c ≠ '='))
  !D.isEmpty && D.all (fun c => isAlphaB c.toNat) &&
    P.all (fun c => decide (c = '=')) && padRule (D.length % 4) P.length

/-- Decides whether `pat` is an initial segment of `s`. -/
def leadsWith : List Char → List Char → Bool
  | [], _ => true
  | _ :: _, [] => false
  | a :: as, b :: bs => a = b && leadsWith as bs

/-- Decides whether `pat` occurs contiguously somewhere inside `s`. -/
def occursIn (pat : List Char) : List Char → Bool
  | [] => pat.isEmpty
  | c :: rest => leadsWith pat (c :: rest) || occursIn pat rest

/-- Body of an HTML response, empty for the other response kinds. -/
def htmlBodyOf : Option Resp → String
  | some (.html _ b) => b
  | _ => ""

/-- Modelled from the spec: the literal `/sleep` body template of spec
section 6, which renders the page head on a single line
`<!DOCTYPE html><head></head><body><script>` with no indentation, with
`{sec}` substituted and immediately followed by `000`. -/
def spec6SleepBody (sec : Int) : String :=
  "<!DOCTYPE html><head></head><body><script>\nconsole.log(\"before\");\nsetTimeout(() => console.log(\"after\"), " ++
    toString sec ++ "000);\n</script></body></html>"

/-- Modelled from the spec: the literal `/document/write` body template of
spec section 6, single-line page head, `{url}` substituted unescaped. -/
def spec6DwBody (url : String) : String :=
  "<!DOCTYPE html><head></head><body><script>\nvar t = new XMLHttpRequest;\nt.onload = function () \x7b\n  t.status >= 200 && t.status < 300 ? document.write(t.responseText) : console.error(\"Request failed with status: \" + t.status)\n\x7d;\nt.open(\"GET\", \"" ++
    url ++ "\");\nt.send();\n</script></body></html>"

/-- The base64 text the `/encode` endpoint answers for input `s`: its
UTF-8 bytes, base64-encoded, read back as a string (the bytes are ASCII). -/
def encStr (s : String) : String :=
  String.mk ((b64encode (encodeUtf8 s.data)).map Char.ofNat)

/-! ### Character and UTF-8 groundwork -/

theorem charValidNat (c : Char) : Nat.isValidChar c.toNat := by
  rcases c.valid with h | ⟨h1, h2⟩
  · exact Or.inl (UInt32.toNat_lt_of_lt (by decide) h)
  · exact Or.inr ⟨UInt32.lt_toNat_of_lt (by decide) h1, UInt32.toNat_lt_of_lt (by decide) h2⟩

theorem toNat_char_ofNat {n : Nat} (h : Nat.isValidChar n) : (Char.ofNat n).toNat = n := by
  simp only [Char.ofNat, dif_pos h, Char.ofNatAux, Char.toNat, UInt32.toNat]
  simp

theorem char_toNat_lt (c : Char) : c.toNat < 1114112 := by
  rcases charValidNat c with h | ⟨_, h2⟩
  · omega
  · exact h2

theorem utf8EncodeChar_ascii {c : Char} (h : c.toNat < 128) :
    utf8EncodeChar c = [c.toNat] := by
  simp [utf8EncodeChar, h]

theorem utf8EncodeChar_ne_nil (c : Char) : utf8EncodeChar c ≠ [] := by
  by_cases h1 : c.toNat < 128 <;> by_cases h2 : c.toNat < 2048 <;>
    by_cases h3 : c.toNat < 65536 <;> simp [utf8EncodeChar, h1, h2, h3]

theorem utf8EncodeChar_lt_256 {c : Char} {b : Nat} (hb : b ∈ utf8EncodeChar c) : b < 256 := by
  have := char_toNat_lt c
  by_cases h1 : c.toNat < 128 <;> by_cases h2 : c.toNat < 2048 <;>
    by_cases h3 : c.toNat < 65536 <;>
    simp [utf8EncodeChar, h1, h2, h3] at hb <;> omega

theorem encodeUtf8_lt_256 {cs : List Char} {b : Nat} (hb : b ∈ encodeUtf8 cs) : b < 256 := by
  induction cs with
  | nil => simp [encodeUtf8] at hb
  | cons c cs ih =>
    simp only [encodeUtf8, List.mem_append] at hb
    rcases hb with h | h
    · exact utf8EncodeChar_lt_256 h
    · exact ih h

theorem encodeUtf8_ne_nil {c : Char} {cs : List Char} : encodeUtf8 (c :: cs) ≠ [] := by
  simp only [encodeUtf8]
  intro h
  exact utf8EncodeChar_ne_nil c (List.append_eq_nil.mp h).1

set_option maxRecDepth 4000 in
theorem utf8Step_length {b : Nat} {rest : List Nat} {c : Char} {rest2 : List Nat}
    (h : utf8Step b rest = some (c, rest2)) : rest2.length ≤ rest.length := by
  unfold utf8Step at h
  repeat' split at h
  all_goals cases h <;> (try simp only [List.length_cons]) <;> omega

theorem decodeUtf8Go_eq : ∀ (f1 f2 : Nat) (bs : List Nat), bs.length ≤ f1 →
    bs.length ≤ f2 → decodeUtf8Go f1 bs = decodeUtf8Go f2 bs := by
  intro f1
  induction f1 with
  | zero =>
    intro f2 bs h1 h2
    cases bs with
    | nil => cases f2 <;> rfl
    | cons b rest => simp at h1
  | succ f ih =>
    intro f2 bs h1 h2
    cases bs with
    | nil => cases f2 <;> rfl
    | cons b rest =>
      cases f2 with
      | zero => simp at h2
      | succ f2b =>
        simp only [decodeUtf8Go]
        cases hstep : utf8Step b rest with
        | none => rfl
        | some pr =>
          obtain ⟨c, rest2⟩ := pr
          have hl := utf8Step_length hstep
          simp only [List.length_cons] at h1 h2
          dsimp only
          rw [ih f2b rest2 (by omega) (by omega)]

theorem decodeUtf8_cons_step {b : Nat} {rest rest2 : List Nat} {c : Char}
    (h : utf8Step b rest = some (c, rest2)) :
    decodeUtf8 (b :: rest) =
      match decodeUtf8 rest2 with
      | some cs => some (c :: cs)
      | none => none := by
  unfold decodeUtf8
  simp only [List.length_cons, decodeUtf8Go]
  rw [h]
  dsimp only
  have hl := utf8Step_length h
  rw [decodeUtf8Go_eq rest.length rest2.length rest2 (by omega) (by omega)]

theorem decodeUtf8_cons_none {b : Nat} {rest : List Nat}
    (h : utf8Step b rest = none) : decodeUtf8 (b :: rest) = none := by
  unfold decodeUtf8
  simp only [List.length_cons, decodeUtf8Go]
  rw [h]

theorem utf8Step_encodeChar (c : Char) (bs : List Nat) :
    utf8EncodeChar c ++ bs =
      ((utf8EncodeChar c ++ bs).headD 0) :: ((utf8EncodeChar c).tail ++ bs) ∧
    utf8Step ((utf8EncodeChar c ++ bs).headD 0) ((utf8EncodeChar c).tail ++ bs) =
      some (c, bs) := by
  have hval := charValidNat c
  have hub := char_toNat_lt c
  by_cases h1 : c.toNat < 128
  · rw [utf8EncodeChar_ascii h1]
    refine ⟨rfl, ?_⟩
    simp only [List.cons_append, List.nil_append, List.headD_cons, List.tail_cons, utf8Step,
      if_pos h1, Char.ofNat_toNat]
  · by_cases h2 : c.toNat < 2048
    · have e : utf8EncodeChar c = [192 + c.toNat / 64, 128 + c.toNat % 64] := by
        simp [utf8EncodeChar, h1, h2]
      rw [e]
      refine ⟨rfl, ?_⟩
      simp only [List.cons_append, List.nil_append, List.headD_cons, List.tail_cons, utf8Step]
      rw [if_neg (by omega), if_neg (by omega), if_pos (by omega)]
      rw [if_pos (by omega)]
      have hn : (192 + c.toNat / 64 - 192) * 64 + (128 + c.toNat % 64 - 128) = c.toNat := by
        omega
      rw [hn, Char.ofNat_toNat]
    · by_cases h3 : c.toNat < 65536
      · have e : utf8EncodeChar c =
            [224 + c.toNat / 4096, 128 + c.toNat / 64 % 64, 128 + c.toNat % 64] := by
          simp [utf8EncodeChar, h1, h2, h3]
        rw [e]
        refine ⟨rfl, ?_⟩
        simp only [List.cons_append, List.nil_append, List.headD_cons, List.tail_cons, utf8Step]
        rw [if_neg (by omega), if_neg (by omega), if_neg (by omega), if_pos (by omega)]
        rw [if_pos (by omega)]
        have hn : (224 + c.toNat / 4096 - 224) * 4096 +
            (128 + c.toNat / 64 % 64 - 128) * 64 + (128 + c.toNat % 64 - 128) = c.toNat := by
          omega
        rw [hn]
        have hsur : ¬(55296 ≤ c.toNat ∧ c.toNat < 57344) := by
          rcases hval with h | ⟨ha, _⟩ <;> omega
        rw [if_neg (by omega), if_neg hsur, Char.ofNat_toNat]
      · have e : utf8EncodeChar c =
            [240 + c.toNat / 262144, 128 + c.toNat / 4096 % 64,
              128 + c.toNat / 64 % 64, 128 + c.toNat % 64] := by
          simp [utf8EncodeChar, h1, h2, h3]
        rw [e]
        refine ⟨rfl, ?_⟩
        simp only [List.cons_append, List.nil_append, List.headD_cons, List.tail_cons, utf8Step]
        rw [if_neg (by omega), if_neg (by omega), if_neg (by omega), if_neg (by omega),
          if_pos (by omega)]
        rw [if_pos (by omega)]
        have hn : (240 + c.toNat / 262144 - 240) * 262144 +
            (128 + c.toNat / 4096 % 64 - 128) * 4096 +
            (128 + c.toNat / 64 % 64 - 128) * 64 + (128 + c.toNat % 64 - 128) = c.toNat := by
          omega
        rw [hn, if_neg (by omega), if_neg (by omega), Char.ofNat_toNat]

theorem decodeUtf8_char_append (c : Char) (bs : List Nat) :
    decodeUtf8 (utf8EncodeChar c ++ bs) =
      match decodeUtf8 bs with
      | some cs => some (c :: cs)
      | none => none := by
  obtain ⟨hshape, hstep⟩ := utf8Step_encodeChar c bs
  rw [hshape, decodeUtf8_cons_step hstep]

theorem decodeUtf8_nil : decodeUtf8 [] = some [] := rfl

theorem decodeUtf8_encodeUtf8 (cs : List Char) : decodeUtf8 (encodeUtf8 cs) = some cs := by
  induction cs with
  | nil => exact decodeUtf8_nil
  | cons c cs ih =>
    simp only [encodeUtf8]
    rw [decodeUtf8_char_append, ih]

theorem decodeUtf8_ascii (bs : List Nat) (h : ∀ b ∈ bs, b < 128) :
    decodeUtf8 bs = some (bs.map Char.ofNat) := by
  induction bs with
  | nil => exact decodeUtf8_nil
  | cons b rest ih =>
    have hb : b < 128 := h b (by simp)
    have hstep : utf8Step b rest = some (Char.ofNat b, rest) := by
      simp only [utf8Step, if_pos hb]
    rw [decodeUtf8_cons_step hstep, ih (fun x hx => h x (by simp [hx])), List.map_cons]

/-! ### Base64 decoding-loop lemmas -/

theorem a2bLoop_strict_lenient {bs : List Nat} :
    ∀ {q l p : Nat} {ps : Bool} {out r : List Nat},
      a2bLoop true bs q l p ps out = some r → a2bLoop false bs q l p ps out = some r := by
  induction bs with
  | nil => exact fun h => h
  | cons b rest ih =>
    intro q l p ps out r h
    simp only [a2bLoop] at h ⊢
    by_cases hb : b = 61
    · simp only [if_pos hb] at h ⊢
      by_cases hq : 2 ≤ q
      · simp only [if_pos hq] at h ⊢
        by_cases h4 : 4 ≤ q + (p + 1)
        · simp only [if_pos h4] at h ⊢
          rcases eq_or_ne rest [] with hr | hr
          · simpa [hr] using h
          · simp [hr] at h
        · simp only [if_neg h4] at h ⊢
          exact ih h
      · simp only [if_neg hq] at h ⊢
        exact ih h
    · simp only [if_neg hb] at h ⊢
      cases htb : table_a2b b with
      | none => simp [htb] at h
      | some v =>
        rw [htb] at h
        dsimp only at h ⊢
        rw [if_neg (by simp)]
        by_cases hps : ps = true
        · rw [if_pos (by simp [hps])] at h
          cases h
        · rw [if_neg (by simp [hps])] at h
          by_cases h0 : q = 0
          · rw [if_pos h0] at h ⊢
            exact ih h
          · rw [if_neg h0] at h ⊢
            by_cases h1 : q = 1
            · rw [if_pos h1] at h ⊢
              exact ih h
            · rw [if_neg h1] at h ⊢
              by_cases h2 : q = 2
              · rw [if_pos h2] at h ⊢
                exact ih h
              · rw [if_neg h2] at h ⊢
                exact ih h

theorem a2bLoop_padZone01 {rest : List Nat} :
    ∀ {q l p : Nat} {out : List Nat}, q ≤ 1 →
      (a2bLoop true rest q l p true out).isSome =
        (rest.all (fun x => decide (x = 61)) && decide (q = 0)) := by
  induction rest with
  | nil =>
    intro q l p out hq
    by_cases h0 : q = 0 <;> simp [a2bLoop, h0]
  | cons b rest ih =>
    intro q l p out hq
    simp only [a2bLoop]
    by_cases hb : b = 61
    · have h2 : ¬ 2 ≤ q := by omega
      simp only [if_pos hb, if_neg h2]
      rw [ih hq]
      simp [hb]
    · cases htb : table_a2b b with
      | none => simp [hb, htb]
      | some v => simp [hb, htb]

theorem a2bLoop_padZone2 {rest : List Nat} {l : Nat} {out : List Nat} :
    (a2bLoop true rest 2 l 1 true out).isSome = decide (rest = [61]) := by
  cases rest with
  | nil => simp [a2bLoop]
  | cons b rest2 =>
    simp only [a2bLoop]
    by_cases hb : b = 61
    · rcases eq_or_ne rest2 [] with hr | hr <;> simp [hb, hr]
    · cases htb : table_a2b b with
      | none => simp [hb, htb]
      | some v => simp [hb, htb]

theorem a2bLoop_isSome_okFrom {bs : List Nat} :
    ∀ {q l : Nat} {out : List Nat}, q < 4 →
      (a2bLoop true bs q l 0 false out).isSome = okFrom q bs := by
  induction bs with
  | nil =>
    intro q l out hq
    by_cases h0 : q = 0 <;> simp [a2bLoop, okFrom, h0]
  | cons b rest ih =>
    intro q l out hq
    simp only [a2bLoop, okFrom]
    by_cases hb : b = 61
    · simp only [if_pos hb]
      interval_cases q
      · have h2 : ¬ 2 ≤ 0 := by omega
        rw [if_neg h2, a2bLoop_padZone01 (by omega)]
        simp
      · have h2 : ¬ 2 ≤ 1 := by omega
        rw [if_neg h2, a2bLoop_padZone01 (by omega)]
        simp
      · have h2 : (2 : Nat) ≤ 2 := by omega
        have h4 : ¬ 4 ≤ 2 + (0 + 1) := by omega
        rw [if_pos h2, if_neg h4, a2bLoop_padZone2]
        simp
      · have h2 : (2 : Nat) ≤ 3 := by omega
        have h4 : 4 ≤ 3 + (0 + 1) := by omega
        rw [if_pos h2, if_pos h4]
        rcases eq_or_ne rest [] with hr | hr <;> simp [hr]
    · simp only [if_neg hb]
      cases htb : table_a2b b with
      | none => simp
      | some v =>
        dsimp only
        rw [if_neg (by simp)]
        interval_cases q
        · rw [if_pos rfl]
          rw [ih (by omega)]
        · rw [if_neg (by omega), if_pos rfl]
          rw [ih (by omega)]
        · rw [if_neg (by omega), if_neg (by omega), if_pos rfl]
          rw [ih (by omega)]
        · rw [if_neg (by omega), if_neg (by omega), if_neg (by omega)]
          rw [ih (by omega)]

theorem a2b_strict_isSome (bs : List Nat) :
    (a2b_base64 true bs).isSome =
      (decide (bs.head? ≠ some 61) && okFrom 0 bs) := by
  unfold a2b_base64
  by_cases hh : bs.head? = some 61
  · simp [hh]
  · rw [if_neg (by simp [hh]), a2bLoop_isSome_okFrom (by omega)]
    simp [hh]

theorem all61_len1 (l : List Nat) :
    (l.all (fun x => decide (x = 61)) && decide (l.length + 1 = 2)) = decide (l = [61]) := by
  cases l with
  | nil => simp
  | cons x t =>
    cases t with
    | nil => simp
    | cons y u => simp

theorem all61_len0 (l : List Nat) :
    (l.all (fun x => decide (x = 61)) && decide (l.length + 1 = 1)) = l.isEmpty := by
  cases l <;> simp

theorem okFrom_eq_byteSpecFrom {bs : List Nat} : ∀ {q : Nat}, q < 4 →
    okFrom q bs = byteSpecFrom q bs := by
  induction bs with
  | nil =>
    intro q hq
    interval_cases q <;> simp [okFrom, byteSpecFrom, padRule]
  | cons b rest ih =>
    intro q hq
    simp only [okFrom, byteSpecFrom]
    by_cases hb : b = 61
    · subst hb
      rw [List.takeWhile_cons_of_neg (by simp), List.dropWhile_cons_of_neg (by simp)]
      rw [if_pos rfl]
      interval_cases q
      · simp [padRule]
      · simp [padRule]
      · simp only [padRule, List.length_nil, Nat.add_zero, List.all_nil, Bool.true_and,
          List.all_cons, List.length_cons]
        rw [← all61_len1 rest]
        simp
      · simp only [padRule, List.length_nil, Nat.add_zero, List.all_nil, Bool.true_and,
          List.all_cons, List.length_cons]
        rw [← all61_len0 rest]
        simp
    · rw [List.takeWhile_cons_of_pos (by simp [hb]), List.dropWhile_cons_of_pos (by simp [hb])]
      rw [if_neg hb]
      cases htb : table_a2b b with
      | none =>
        have hal : isAlphaB b = false := by simp [isAlphaB, htb]
        simp [hal]
      | some v =>
        have hal : isAlphaB b = true := by simp [isAlphaB, htb]
        have harg : (q + ((rest.takeWhile (fun x => decide (x ≠ 61))).length + 1)) % 4 =
            ((q + 1) % 4 + (rest.takeWhile (fun x => decide (x ≠ 61))).length) % 4 := by
          omega
        rw [ih (by omega)]
        simp only [byteSpecFrom, List.all_cons, hal, Bool.true_and, List.length_cons, harg]

theorem a2b_strict_isSome_spec (bs : List Nat) :
    (a2b_base64 true bs).isSome =
      (decide (bs.head? ≠ some 61) && byteSpecFrom 0 bs) := by
  rw [a2b_strict_isSome, okFrom_eq_byteSpecFrom (by omega)]

theorem isAlphaB_lt_128 {b : Nat} (h : isAlphaB b = true) : b < 128 := by
  unfold isAlphaB table_a2b at h
  repeat' split at h
  all_goals simp_all
  all_goals omega

theorem byteSpec_mem {bs : List Nat} (h : byteSpecFrom 0 bs = true) :
    ∀ b ∈ bs, b < 128 := by
  intro b hb
  simp only [byteSpecFrom, Bool.and_eq_true] at h
  obtain ⟨⟨hD, hP⟩, -⟩ := h
  rw [← List.takeWhile_append_dropWhile (fun b => decide (b ≠ 61)) bs,
    List.mem_append] at hb
  rcases hb with hb | hb
  · exact isAlphaB_lt_128 (by simpa using List.all_eq_true.mp hD b hb)
  · have : b = 61 := by simpa using List.all_eq_true.mp hP b hb
    omega

/-! ### Base64 encode/decode roundtrip -/

theorem table_encTable : ∀ v : Nat, v < 64 → table_a2b (encTable v) = some v := by decide

theorem encTable_ne_61 : ∀ v : Nat, v < 64 → encTable v ≠ 61 := by decide

theorem encTable_lt_128 (v : Nat) : encTable v < 128 := by
  unfold encTable
  repeat' split
  all_goals omega

theorem b64encode_lt_128 : ∀ (bs : List Nat), ∀ b ∈ b64encode bs, b < 128
  | [] => by simp [b64encode]
  | [a] => by
    intro x hx
    simp only [b64encode, List.mem_cons, List.not_mem_nil, or_false] at hx
    rcases hx with rfl | rfl | rfl | rfl <;> first | exact encTable_lt_128 _ | omega
  | [a, b] => by
    intro x hx
    simp only [b64encode, List.mem_cons, List.not_mem_nil, or_false] at hx
    rcases hx with rfl | rfl | rfl | rfl <;> first | exact encTable_lt_128 _ | omega
  | a :: b :: c :: d :: rest => by
    intro x hx
    simp only [b64encode, List.mem_cons] at hx
    rcases hx with rfl | rfl | rfl | rfl | hx
    · exact encTable_lt_128 _
    · exact encTable_lt_128 _
    · exact encTable_lt_128 _
    · exact encTable_lt_128 _
    · exact b64encode_lt_128 (d :: rest) x hx
  | [a, b, c] => by
    intro x hx
    simp only [b64encode, List.mem_cons] at hx
    rcases hx with rfl | rfl | rfl | rfl | hx
    · exact encTable_lt_128 _
    · exact encTable_lt_128 _
    · exact encTable_lt_128 _
    · exact encTable_lt_128 _
    · exact b64encode_lt_128 [] x hx

theorem a2bLoop_quad {v1 v2 v3 v4 : Nat} (h1 : v1 < 64) (h2 : v2 < 64) (h3 : v3 < 64)
    (h4 : v4 < 64) (tl out : List Nat) :
    a2bLoop true (encTable v1 :: encTable v2 :: encTable v3 :: encTable v4 :: tl)
        0 0 0 false out =
      a2bLoop true tl 0 0 0 false
        (out ++ [(v1 * 4 + v2 / 16) % 256, (v2 % 16 * 16 + v3 / 4) % 256,
          (v3 % 4 * 64 + v4) % 256]) := by
  simp [a2bLoop, table_encTable v1 h1, table_encTable v2 h2, table_encTable v3 h3,
    table_encTable v4 h4, encTable_ne_61 v1 h1, encTable_ne_61 v2 h2,
    encTable_ne_61 v3 h3, encTable_ne_61 v4 h4]

theorem a2bLoop_encode : ∀ (bs : List Nat), (∀ x ∈ bs, x < 256) → ∀ out : List Nat,
    a2bLoop true (b64encode bs) 0 0 0 false out = some (out ++ bs)
  | [], _, out => by simp [b64encode, a2bLoop]
  | [a], h, out => by
    have ha : a < 256 := h a (by simp)
    have h1 : a / 4 < 64 := by omega
    have h2 : a % 4 * 16 < 64 := by omega
    have e1 : (a / 4 * 4 + a % 4) % 256 = a := by omega
    simp only [b64encode]
    simp [a2bLoop, table_encTable _ h1, table_encTable _ h2, encTable_ne_61 _ h1,
      encTable_ne_61 _ h2, e1]
  | [a, b], h, out => by
    have ha : a < 256 := h a (by simp)
    have hb : b < 256 := h b (by simp)
    have h1 : a / 4 < 64 := by omega
    have h2 : a % 4 * 16 + b / 16 < 64 := by omega
    have h3 : b % 16 * 4 < 64 := by omega
    have e1 : (a / 4 * 4 + (a % 4 * 16 + b / 16) / 16) % 256 = a := by omega
    have e2 : ((a % 4 * 16 + b / 16) % 16 * 16 + b % 16) % 256 = b := by omega
    simp only [b64encode]
    simp [a2bLoop, table_encTable _ h1, table_encTable _ h2, table_encTable _ h3,
      encTable_ne_61 _ h1, encTable_ne_61 _ h2, encTable_ne_61 _ h3, e1, e2]
  | a :: b :: c :: rest, h, out => by
    have ha : a < 256 := h a (by simp)
    have hb : b < 256 := h b (by simp)
    have hc : c < 256 := h c (by simp)
    have h1 : a / 4 < 64 := by omega
    have h2 : a % 4 * 16 + b / 16 < 64 := by omega
    have h3 : b % 16 * 4 + c / 64 < 64 := by omega
    have h4 : c % 64 < 64 := by omega
    have e1 : (a / 4 * 4 + (a % 4 * 16 + b / 16) / 16) % 256 = a := by omega
    have e2 : ((a % 4 * 16 + b / 16) % 16 * 16 + (b % 16 * 4 + c / 64) / 4) % 256 = b := by
      omega
    have e3 : ((b % 16 * 4 + c / 64) % 4 * 64 + c % 64) % 256 = c := by omega
    simp only [b64encode]
    rw [a2bLoop_quad h1 h2 h3 h4]
    rw [a2bLoop_encode rest (fun x hx => h x (by simp [hx])) _]
    rw [e1, e2, e3]
    simp

theorem b64encode_head_ne_61 : ∀ (bs : List Nat), (∀ x ∈ bs, x < 256) →
    (b64encode bs).head? ≠ some 61
  | [], _ => by simp [b64encode]
  | [a], h => by
    have : a / 4 < 64 := by have := h a (by simp); omega
    simp only [b64encode, List.head?_cons, ne_eq, Option.some.injEq]
    exact encTable_ne_61 _ this
  | [a, b], h => by
    have : a / 4 < 64 := by have := h a (by simp); omega
    simp only [b64encode, List.head?_cons, ne_eq, Option.some.injEq]
    exact encTable_ne_61 _ this
  | a :: b :: c :: rest, h => by
    have : a / 4 < 64 := by have := h a (by simp); omega
    simp only [b64encode, List.head?_cons, ne_eq, Option.some.injEq]
    exact encTable_ne_61 _ this

theorem b64decode_strict_encode (bs : List Nat) (h : ∀ x ∈ bs, x < 256) :
    b64decode true (b64encode bs) = some bs := by
  unfold b64decode a2b_base64
  rw [if_neg (by simp [b64encode_head_ne_61 bs h])]
  simpa using a2bLoop_encode bs h []

theorem a2b_strict_lenient {bs out : List Nat} (h : a2b_base64 true bs = some out) :
    a2b_base64 false bs = some out := by
  unfold a2b_base64 at h ⊢
  rw [if_neg (by simp)]
  by_cases hh : bs.head? = some 61
  · rw [if_pos ⟨rfl, hh⟩] at h
    cases h
  · rw [if_neg (by simp [hh])] at h
    exact a2bLoop_strict_lenient h

theorem b64decode_lenient_encode (bs : List Nat) (h : ∀ x ∈ bs, x < 256) :
    b64decode false (b64encode bs) = some bs :=
  a2b_strict_lenient (b64decode_strict_encode bs h)

theorem validator_lenient {s : String} (h : is_base64_encoded s = true) :
    ∃ bs, b64decode false (encodeUtf8 s.data) = some bs ∧
      b64decode true (encodeUtf8 s.data) = some bs := by
  unfold is_base64_encoded at h
  split at h
  · cases h
  · obtain ⟨bs, hbs⟩ := Option.isSome_iff_exists.mp h
    exact ⟨bs, a2b_strict_lenient hbs, hbs⟩

theorem encodeUtf8_map_ofNat (bs : List Nat) (h : ∀ b ∈ bs, b < 128) :
    encodeUtf8 (bs.map Char.ofNat) = bs := by
  induction bs with
  | nil => rfl
  | cons b rest ih =>
    have hb : b < 128 := h b (by simp)
    have hvb : Nat.isValidChar b := Or.inl (by omega)
    simp only [List.map_cons, encodeUtf8]
    rw [utf8EncodeChar_ascii (by rw [toNat_char_ofNat hvb]; exact hb),
      toNat_char_ofNat hvb, ih (fun x hx => h x (by simp [hx]))]
    rfl

/-! ### Bridging bytes and characters for the validator characterization -/

theorem char_toNat_inj {c d : Char} (h : c.toNat = d.toNat) : c = d :=
  Char.ext (UInt32.toNat.inj h)

theorem ne61_decide : ((fun b => decide (b ≠ 61)) ∘ Char.toNat) =
    fun c => decide (c ≠ '=') := by
  funext c
  simp only [Function.comp]
  by_cases h : c = '='
  · subst h
    simp
  · have hn : c.toNat ≠ 61 := fun hn => h (char_toNat_inj (by simpa using hn))
    simp [h, hn]

theorem eq61_decide : ((fun b => decide (b = 61)) ∘ Char.toNat) =
    fun c => decide (c = '=') := by
  funext c
  simp only [Function.comp]
  by_cases h : c = '='
  · subst h
    simp
  · have hn : c.toNat ≠ 61 := fun hn => h (char_toNat_inj (by simpa using hn))
    simp [h, hn]

theorem all_map_toNat (l : List Char) (p : Nat → Bool) :
    (l.map Char.toNat).all p = l.all (fun c => p c.toNat) := by
  induction l with
  | nil => rfl
  | cons c t ih => simp [ih]

theorem eq61_decide1 (c : Char) : decide (c.toNat = 61) = decide (c = '=') := by
  by_cases h : c = '='
  · subst h
    simp
  · have hn : c.toNat ≠ 61 := fun hn => h (char_toNat_inj (by simpa using hn))
    simp [h, hn]

theorem byteSpecFrom_map (cs : List Char) (q : Nat) :
    byteSpecFrom q (cs.map Char.toNat) =
      ((cs.takeWhile (fun c => decide (c ≠ '='))).all (fun c => isAlphaB c.toNat) &&
        (cs.dropWhile (fun c => decide (c ≠ '='))).all (fun c => decide (c = '=')) &&
        padRule ((q + (cs.takeWhile (fun c => decide (c ≠ '='))).length) % 4)
          (cs.dropWhile (fun c => decide (c ≠ '='))).length) := by
  simp only [byteSpecFrom]
  rw [List.takeWhile_map, List.dropWhile_map, ne61_decide]
  rw [all_map_toNat, all_map_toNat, List.length_map, List.length_map]
  simp only [eq61_decide1]

theorem encodeUtf8_allAscii (cs : List Char) (h : ∀ c ∈ cs, c.toNat < 128) :
    encodeUtf8 cs = cs.map Char.toNat := by
  induction cs with
  | nil => rfl
  | cons c cs ih =>
    simp only [encodeUtf8, List.map_cons]
    rw [utf8EncodeChar_ascii (h c (by simp)), ih (fun x hx => h x (by simp [hx]))]
    rfl

theorem mem_encodeUtf8 {cs : List Char} {c : Char} (hc : c ∈ cs) {b : Nat}
    (hb : b ∈ utf8EncodeChar c) : b ∈ encodeUtf8 cs := by
  induction cs with
  | nil => cases hc
  | cons d ds ih =>
    simp only [encodeUtf8, List.mem_append]
    rcases List.mem_cons.mp hc with rfl | hc2
    · exact Or.inl hb
    · exact Or.inr (ih hc2)

theorem utf8EncodeChar_nonAscii {c : Char} (h : 128 ≤ c.toNat) :
    ∃ b ∈ utf8EncodeChar c, 128 ≤ b := by
  have h1 : ¬(c.toNat < 128) := by omega
  by_cases h2 : c.toNat < 2048
  · refine ⟨192 + c.toNat / 64, ?_, by omega⟩
    simp [utf8EncodeChar, h1, h2]
  · by_cases h3 : c.toNat < 65536
    · refine ⟨224 + c.toNat / 4096, ?_, by omega⟩
      simp [utf8EncodeChar, h1, h2, h3]
    · refine ⟨240 + c.toNat / 262144, ?_, by omega⟩
      simp [utf8EncodeChar, h1, h2, h3]

theorem charSpec_ascii {cs : List Char} (h : charSpec cs = true) :
    ∀ c ∈ cs, c.toNat < 128 := by
  intro c hc
  simp only [charSpec, Bool.and_eq_true] at h
  obtain ⟨⟨⟨-, hD⟩, hP⟩, -⟩ := h
  rw [← List.takeWhile_append_dropWhile (fun c => decide (c ≠ '=')) cs,
    List.mem_append] at hc
  rcases hc with hc | hc
  · exact isAlphaB_lt_128 (by simpa using List.all_eq_true.mp hD c hc)
  · have heq : c = '=' := by simpa using List.all_eq_true.mp hP c hc
    subst heq
    decide

theorem bridgeAscii (cs : List Char) (hne : cs ≠ []) :
    (decide ((cs.map Char.toNat).head? ≠ some 61) && byteSpecFrom 0 (cs.map Char.toNat)) =
      charSpec cs := by
  cases cs with
  | nil => cases hne rfl
  | cons c cs2 =>
    rw [byteSpecFrom_map]
    by_cases hc : c = '='
    · subst hc
      rw [List.takeWhile_cons_of_neg (by simp), List.dropWhile_cons_of_neg (by simp)]
      have hh : ¬(((('=' :: cs2).map Char.toNat).head? ≠ some 61)) := by simp
      rw [decide_eq_false hh]
      simp only [charSpec]
      rw [List.takeWhile_cons_of_neg (by simp)]
      simp
    · have hcn : c.toNat ≠ 61 := fun hn => hc (char_toNat_inj (by simpa using hn))
      rw [List.takeWhile_cons_of_pos (by simp [hc]), List.dropWhile_cons_of_pos (by simp [hc])]
      rw [decide_eq_true (show (((c :: cs2).map Char.toNat).head? ≠ some 61) by simp [hcn])]
      simp only [charSpec]
      rw [List.takeWhile_cons_of_pos (by simp [hc]), List.dropWhile_cons_of_pos (by simp [hc])]
      simp only [List.isEmpty_cons, Bool.not_false, Bool.true_and, List.all_cons,
        List.length_cons, Nat.zero_add]

theorem validator_charSpec (s : String) : is_base64_encoded s = charSpec s.data := by
  by_cases hAscii : ∀ x ∈ s.data, Char.toNat x < 128
  · cases hs : s.data with
    | nil =>
      unfold is_base64_encoded
      rw [hs]
      simp [charSpec]
    | cons c cs =>
      unfold is_base64_encoded
      rw [hs, if_neg (by simp)]
      rw [show b64decode true (encodeUtf8 (c :: cs)) =
        a2b_base64 true (encodeUtf8 (c :: cs)) from rfl]
      rw [a2b_strict_isSome_spec, encodeUtf8_allAscii _ (hs ▸ hAscii)]
      exact bridgeAscii (c :: cs) (by simp)
  · push_neg at hAscii
    obtain ⟨x, hx, hxge⟩ := hAscii
    have hcs : charSpec s.data = false := by
      by_contra hne
      have h1 : charSpec s.data = true := by simpa using hne
      have := charSpec_ascii h1 x hx
      omega
    have hval : is_base64_encoded s = false := by
      by_contra hne
      have htrue : is_base64_encoded s = true := by simpa using hne
      unfold is_base64_encoded at htrue
      split at htrue
      · cases htrue
      · rw [show b64decode true (encodeUtf8 s.data) =
          a2b_base64 true (encodeUtf8 s.data) from rfl, a2b_strict_isSome_spec] at htrue
        simp only [Bool.and_eq_true] at htrue
        have hb := htrue.2
        obtain ⟨bbad, hmem, hge⟩ := utf8EncodeChar_nonAscii hxge
        have := byteSpec_mem hb bbad (mem_encodeUtf8 hx hmem)
        omega
    rw [hval, hcs]

/-! ### Handler-level lemmas -/

theorem encode_data_eq (s : String) :
    encode_data s = some (.json 200 [("original", s), ("encoded", encStr s)]) := by
  unfold encode_data
  rw [decodeUtf8_ascii _ (b64encode_lt_128 _)]
  rfl

theorem encStr_data (s : String) :
    (encStr s).data = (b64encode (encodeUtf8 s.data)).map Char.ofNat := rfl

theorem decode_encStr (s : String) :
    decode_data (encStr s) =
      some (.json 200 [("original_b64", encStr s), ("decoded", s)]) := by
  unfold decode_data
  rw [encStr_data, encodeUtf8_map_ofNat _ (b64encode_lt_128 _)]
  rw [b64decode_lenient_encode _ (fun b hb => encodeUtf8_lt_256 hb)]
  dsimp only
  rw [decodeUtf8_encodeUtf8]

theorem html_none_iff (content : String) :
    html_renderer content = none ↔
      (is_base64_encoded content = true ∧
        ∃ bs, b64decode false (encodeUtf8 content.data) = some bs ∧
          decodeUtf8 bs = none) := by
  unfold html_renderer
  by_cases hv : is_base64_encoded content
  · rw [if_pos hv]
    obtain ⟨bs, hlen, -⟩ := validator_lenient hv
    rw [hlen]
    cases hd : decodeUtf8 bs with
    | none => simp [hv, hlen, hd]
    | some cs => simp [hv, hlen, hd]
  · rw [if_neg hv]
    simp [hv]

theorem redirector_none_iff (url : String) :
    redirector url = none ↔
      (is_base64_encoded url = true ∧
        ∃ bs, b64decode false (encodeUtf8 url.data) = some bs ∧
          decodeUtf8 bs = none) := by
  unfold redirector
  by_cases hv : is_base64_encoded url
  · rw [if_pos hv]
    obtain ⟨bs, hlen, -⟩ := validator_lenient hv
    rw [hlen]
    cases hd : decodeUtf8 bs with
    | none => simp [hv, hlen, hd]
    | some cs => simp [hv, hlen, hd]
  · rw [if_neg hv]
    simp [hv]

theorem b64encode_ne_nil : ∀ (bs : List Nat), bs ≠ [] → b64encode bs ≠ []
  | [], h => absurd rfl h
  | [a], _ => by simp [b64encode]
  | [a, b], _ => by simp [b64encode]
  | a :: b :: c :: rest, _ => by simp [b64encode]

theorem string_ne_empty_iff (s : String) : s ≠ "" ↔ s.data ≠ [] := by
  constructor
  · intro h hd
    exact h (String.ext (hd.trans rfl))
  · intro h hs
    exact h (by rw [hs])

/-! ### The claims -/

/-- C1, counterexample: the query string `=` violates the strict base64
rules of section 4.1 (strict decoding rejects it as leading padding), yet
`GET /decode` answers 200 with body `{"original_b64": "=", "decoded": ""}`
instead of the claimed 400, because the handler decodes with the
non-strict `base64.b64decode`. -/
theorem c1_counterexample :
    b64decode true (encodeUtf8 ("=").data) = none ∧
      decode_data "=" = some (.json 200 [("original_b64", "="), ("decoded", "")]) := by
  decide

/-- C1, amended: `GET /decode` responds 400 with `{"detail": "Invalid
Base64 data"}` exactly when the NON-strict `base64.b64decode` of `data`
fails or the decoded bytes are not valid UTF-8; otherwise it responds 200
with `{"original_b64": data, "decoded": <text>}`. -/
theorem c1_amended (data : String) :
    (decode_data data = some (.json 400 [("detail", "Invalid Base64 data")]) ↔
      (b64decode false (encodeUtf8 data.data)).bind decodeUtf8 = none) ∧
    (∀ cs, (b64decode false (encodeUtf8 data.data)).bind decodeUtf8 = some cs →
      decode_data data =
        some (.json 200 [("original_b64", data), ("decoded", String.mk cs)])) := by
  unfold decode_data
  cases hb : b64decode false (encodeUtf8 data.data) with
  | none =>
    constructor
    · simp
    · intro cs hcs
      simp at hcs
  | some bs =>
    dsimp only
    cases hd : decodeUtf8 bs with
    | none =>
      dsimp only
      constructor
      · simp [hd]
      · intro cs hcs
        simp [hd] at hcs
    | some cs2 =>
      dsimp only
      constructor
      · simp [hd]
      · intro cs hcs
        simp only [Option.some_bind, hd, Option.some.injEq] at hcs
        subst hcs
        rfl

/-- C2, counterexample: the validator accepts `dGVz=`, whose length 5 is
not a multiple of 4, so the claimed characterization (length a multiple of
4, padding amount 0-2) is false: Python 3.11's strict decoder ignores
trailing `=` after a complete quad. -/
theorem c2_counterexample :
    is_base64_encoded "dGVz=" = true ∧ ("dGVz=").data.length % 4 = 1 := by
  decide

/-- C2, amended: `is_base64_encoded s` is true iff `s` is non-empty and
splits as a non-empty run `D` of base64-alphabet characters followed by a
run `P` of `=` signs, where either `D.length % 4 = 0` (with any number of
trailing `=`, zero included), or `D.length % 4 = 2` and exactly two `=`,
or `D.length % 4 = 3` and exactly one `=`; any other input (invalid
character, data after padding, leftover length 1 mod 4, wrong padding
count) and the empty string give false, and strictly valid inputs give
true even when they decode to non-UTF-8 bytes. -/
theorem c2_amended (s : String) : is_base64_encoded s = charSpec s.data :=
  validator_charSpec s

/-- C3, counterexample: `////` passes the Validator but decodes to the
non-UTF-8 bytes `ff ff ff`, so `GET /html` and `GET /redirect` raise an
uncaught `UnicodeDecodeError` (no normal response) instead of succeeding
as claimed. -/
theorem c3_counterexample :
    is_base64_encoded "////" = true ∧ html_renderer "////" = none ∧
      redirector "////" = none := by
  decide

/-- C3, amended: `/`, `/log`, `/sleep`, `/encode` and `/document/write`
are total, and `/html` and `/redirect` return a normal response except
exactly when the input passes the Validator and its (non-strict) base64
decoding is not valid UTF-8, in which case they raise. -/
theorem c3_amended :
    root.isSome = true ∧ log.isSome = true ∧ (∀ sec : Int, (sleep sec).isSome = true) ∧
    (∀ data : String, (encode_data data).isSome = true) ∧
    (∀ url : String, (document_write url).isSome = true) ∧
    (∀ content : String, html_renderer content = none ↔
      (is_base64_encoded content = true ∧
        ∃ bs, b64decode false (encodeUtf8 content.data) = some bs ∧
          decodeUtf8 bs = none)) ∧
    (∀ url : String, redirector url = none ↔
      (is_base64_encoded url = true ∧
        ∃ bs, b64decode false (encodeUtf8 url.data) = some bs ∧
          decodeUtf8 bs = none)) := by
  refine ⟨rfl, rfl, fun _ => rfl, fun data => ?_, fun _ => rfl,
    html_none_iff, redirector_none_iff⟩
  rw [encode_data_eq]
  rfl

/-- C4, counterexample: the default `url` does not pass the Validator and
is redirected verbatim, but with the framework's default status 307, not
the claimed 302; and `////` passes the Validator yet produces no redirect
at all (uncaught `UnicodeDecodeError`). -/
theorem c4_counterexample :
    redirector "https://www.google.com" =
        some (.redirect 307 "https://www.google.com") ∧
      (Resp.redirect 307 "https://www.google.com" ≠
        Resp.redirect 302 "https://www.google.com") ∧
      redirector "////" = none := by
  decide

/-- C4, amended: `GET /redirect` responds with an HTTP 307 redirect whose
target is `url` verbatim when `url` fails the Validator, and the UTF-8
reading of the base64 decoding of `url` when `url` passes the Validator
and those bytes are valid UTF-8; when `url` passes the Validator but the
bytes are not valid UTF-8 the handler raises and no redirect is sent. -/
theorem c4_amended (url : String) :
    (is_base64_encoded url = false → redirector url = some (.redirect 307 url)) ∧
    (is_base64_encoded url = true →
      ∃ bs, b64decode false (encodeUtf8 url.data) = some bs ∧
        ((∃ cs, decodeUtf8 bs = some cs ∧
            redirector url = some (.redirect 307 (String.mk cs))) ∨
          (decodeUtf8 bs = none ∧ redirector url = none))) := by
  constructor
  · intro hv
    unfold redirector
    rw [if_neg (by simp [hv])]
  · intro hv
    obtain ⟨bs, hlen, -⟩ := validator_lenient hv
    refine ⟨bs, hlen, ?_⟩
    unfold redirector
    rw [if_pos hv, hlen]
    dsimp only
    cases hd : decodeUtf8 bs with
    | some cs => exact Or.inl ⟨cs, rfl, rfl⟩
    | none => exact Or.inr ⟨rfl, rfl⟩

/-- C5, counterexample: the `/sleep` and `/document/write` bodies are not
byte-for-byte the section 6 templates: the code's triple-quoted templates
start with a newline, put each tag on its own line and keep the source
indentation, while section 6 renders the page head on one line. -/
theorem c5_counterexample :
    sleep 10 ≠ some (Resp.html 200 (spec6SleepBody 10)) ∧
      document_write "http://localhost" ≠
        some (Resp.html 200 (spec6DwBody "http://localhost")) := by
  decide

set_option maxRecDepth 20000 in
/-- C5, amended: the `/sleep` body is byte-for-byte the source's
triple-quoted template with `{sec}` replaced by the clamped integer
immediately followed by the literal characters `000`, and the
`/document/write` body is byte-for-byte the source's template with `{url}`
replaced by the url string unescaped; at the defaults the exact bodies are
the spelled-out literals below. -/
theorem c5_amended :
    (∀ sec : Int, sleep sec =
      some (.html 200 (sleepPre ++ toString (clampSec sec) ++ "000" ++ sleepPost))) ∧
    (∀ url : String, document_write url = some (.html 200 (dwPre ++ url ++ dwPost))) ∧
    sleep 10 = some (.html 200
      "\n<!DOCTYPE html>\n<head>\n</head>\n<body>\n  <script>\n    console.log(\"before\");\n    setTimeout(() => console.log(\"after\"), 10000);\n  </script>\n</body>\n</html>\n    ") ∧
    document_write "http://localhost" = some (.html 200
      "\n<!DOCTYPE html>\n<head>\n</head>\n<body>\n  <script>\n    var t = new XMLHttpRequest;\n    t.onload = function () \x7b\n      t.status >= 200 && t.status < 300 ? document.write(t.responseText) : console.error(\"Request failed with status: \" + t.status)\n    \x7d;\n    t.open(\"GET\", \"http://localhost\");\n    t.send();\n  </script>\n</body>\n</html>\n    ") := by
  exact ⟨fun _ => rfl, fun _ => rfl, by decide, by decide⟩

/-- C6: `GET /sleep` clamps only by absolute value: `sec` with
`abs sec ≤ 10` is kept unchanged including its sign, `abs sec > 10`
becomes the positive integer 10; the response is HTML with status 200, the
body for `sec = -5` contains `, -5000);` and the body for `sec = 15`
contains the clamped `setTimeout(() => console.log("after"), 10000);`. -/
theorem c6 :
    (∀ sec : Int, sec.natAbs ≤ 10 → sleep sec = some (.html 200 (sleepBody sec))) ∧
    (∀ sec : Int, 10 < sec.natAbs → sleep sec = some (.html 200 (sleepBody 10))) ∧
    occursIn (", -5000);").data (htmlBodyOf (sleep (-5))).data = true ∧
    occursIn ("setTimeout(() => console.log(\"after\"), 10000);").data
      (htmlBodyOf (sleep 15)).data = true := by
  refine ⟨fun sec h => ?_, fun sec h => ?_, by decide, by decide⟩
  · unfold sleep clampSec
    rw [if_neg (by omega)]
  · unfold sleep clampSec
    rw [if_pos (by omega)]

/-- C7: round trip — the `encoded` value answered by `GET /encode?data=s`,
supplied as `data` to `GET /decode`, yields a 200 response whose `decoded`
field equals `s`. -/
theorem c7 (s enc : String)
    (h : encode_data s = some (.json 200 [("original", s), ("encoded", enc)])) :
    decode_data enc = some (.json 200 [("original_b64", enc), ("decoded", s)]) := by
  rw [encode_data_eq] at h
  simp only [Option.some.injEq, Resp.json.injEq, List.cons.injEq, Prod.mk.injEq,
    true_and, and_true] at h
  rw [← h]
  exact decode_encStr s

/-- C7, witness: the round trip at `s = "hi"`, whose encoding is `aGk=`. -/
theorem c7_witness :
    decode_data "aGk=" = some (.json 200 [("original_b64", "aGk="), ("decoded", "hi")]) :=
  c7 "hi" "aGk=" (by decide)

/-- C9: `GET /decode` with empty `data` succeeds with 200 and body
`{"original_b64": "", "decoded": ""}`, even though the Validator deems the
empty string not base64 encoded. -/
theorem c9 :
    decode_data "" = some (.json 200 [("original_b64", ""), ("decoded", "")]) ∧
      is_base64_encoded "" = false := by
  decide

/-- C10: the `encoded` value answered by `GET /encode?data=s` satisfies
`is_base64_encoded` exactly when `s` is non-empty (the Codec always emits
strict padded base64, and the empty string encodes to the empty string,
which the Validator rejects). -/
theorem c10 (s enc : String)
    (h : encode_data s = some (.json 200 [("original", s), ("encoded", enc)])) :
    (is_base64_encoded enc = true ↔ s ≠ "") := by
  rw [encode_data_eq] at h
  simp only [Option.some.injEq, Resp.json.injEq, List.cons.injEq, Prod.mk.injEq,
    true_and, and_true] at h
  rw [← h]
  rcases eq_or_ne s "" with rfl | hs
  · constructor
    · intro hv
      exact absurd hv (by decide)
    · intro hne
      exact absurd rfl hne
  · have hdata : s.data ≠ [] := (string_ne_empty_iff s).mp hs
    have hB : b64encode (encodeUtf8 s.data) ≠ [] := by
      refine b64encode_ne_nil _ ?_
      cases hcs : s.data with
      | nil => exact absurd hcs hdata
      | cons c cs => exact encodeUtf8_ne_nil
    constructor
    · intro _
      exact hs
    · intro _
      unfold is_base64_encoded
      rw [encStr_data]
      rw [if_neg (by simp [hB])]
      rw [encodeUtf8_map_ofNat _ (b64encode_lt_128 _)]
      rw [b64decode_strict_encode _ (fun b hb => encodeUtf8_lt_256 hb)]
      rfl

/-- C10, witness: at `s = "hi"` the encoding `aGk=` passes the Validator
and `"hi"` is non-empty. -/
theorem c10_witness : is_base64_encoded "aGk=" = true ↔ ("hi" : String) ≠ "" :=
  c10 "hi" "aGk=" (by decide)

end Fapi
